import Mathlib

/-!
Verification development for the Data-Scientist repository.

The definitions below are shallow embeddings of the Python functions in
the repository's notebooks:

* `FunkSVD`, `create_train_test`, `predict_rating`, `validation_comparison`
  from `6. Recommendation_Engines/2_Matrix_Factorization/3 how are we doing.ipynb`;
* `quantile_ci`, `quantile_permtest`
  from `5. Experimental_Design/3_non-parametric_tests_a.ipynb`.

Conventions of the embedding:

* numpy float values are modelled as rationals (`ℚ`); a possibly-NaN cell of
  the sparse ratings matrix is an `Option ℚ`, with `none` playing the role of
  NaN (any numpy comparison against NaN is false, which the embedding mirrors).
* numpy 2-D arrays holding the factor matrices are lists of row lists;
  in-place writes `a[i, k] = v` become the functional update `setCell`.
* calls that raise in Python (indexing an empty selection, percentile of an
  empty array, percentile outside [0, 100], an unassigned local) return
  `none`, and `Option.bind` propagates the failure exactly as an exception
  unwinds the Python call.
* randomness (`np.random.rand`, `np.random.choice`, `np.random.permutation`)
  is modelled by oracle arguments supplying the drawn values; theorems
  quantify over the oracle, constrained the way numpy constrains the draw
  (e.g. a permutation oracle must produce permutations of the label array).
-/

namespace DataScientist

/-- A numpy 2-D array of possibly-NaN floats, as used for the sparse ratings
matrix `ratings_mat`: explicit dimensions together with the cell contents
(`none` = NaN, i.e. an unobserved rating). -/
structure RatingsMat where
  rows : ℕ
  cols : ℕ
  entry : ℕ → ℕ → Option ℚ

/-- The count `num_ratings = np.count_nonzero(~np.isnan(ratings_mat))`: the number of
non-NaN cells of the ratings matrix. -/
def num_ratings (R : RatingsMat) : ℕ :=
  ((List.range R.rows).map (fun i =>
    ((List.range R.cols).filter (fun j => (R.entry i j).isSome)).length)).sum

/-- The observed-entry test of the training loop, `ratings_mat[i, j] > 0`.
A NaN cell compares false in numpy, as does `none` here. -/
def obsPos (R : RatingsMat) (i j : ℕ) : Bool :=
  match R.entry i j with
  | some v => decide (0 < v)
  | none => false

/-- The number of cells that pass the `ratings_mat[i, j] > 0` test, i.e. the
cells that drive gradient updates. -/
def countDrivers (R : RatingsMat) : ℕ :=
  ((List.range R.rows).map (fun i =>
    ((List.range R.cols).filter (fun j => obsPos R i j)).length)).sum

/-- Read `M[i, j]` from a list-of-rows matrix. -/
def getCell (M : List (List ℚ)) (i j : ℕ) : ℚ :=
  (M.getD i []).getD j 0

/-- The in-place write `M[i, j] = v` on a list-of-rows matrix. -/
def setCell (M : List (List ℚ)) (i j : ℕ) (v : ℚ) : List (List ℚ) :=
  M.set i ((M.getD i []).set j v)

/-- The product `np.dot(user_mat[i, :], movie_mat[:, j])` over `latent` latent features. -/
def dotCell (U M : List (List ℚ)) (i j latent : ℕ) : ℚ :=
  ((List.range latent).map (fun k => getCell U i k * getCell M k j)).sum

/-- One pass of the innermost loop body of `FunkSVD`, at latent feature `k`:

    user_mat[i, k] += learning_rate * (2*diff*movie_mat[k, j])
    movie_mat[k, j] += learning_rate * (2*diff*user_mat[i, k])

Note the second line reads `user_mat[i, k]` after the first line has
written it. -/
def factorStep (lr diff : ℚ) (i j : ℕ) (um : List (List ℚ) × List (List ℚ))
    (k : ℕ) : List (List ℚ) × List (List ℚ) :=
  let u1 := setCell um.1 i k (getCell um.1 i k + lr * (2 * diff * getCell um.2 k j))
  let m1 := setCell um.2 k j (getCell um.2 k j + lr * (2 * diff * getCell u1 i k))
  (u1, m1)

/-- The loop `for k in range(latent_features): ...` — the innermost loop of `FunkSVD`. -/
def factorLoop (lr diff : ℚ) (i j latent : ℕ)
    (um : List (List ℚ) × List (List ℚ)) : List (List ℚ) × List (List ℚ) :=
  (List.range latent).foldl (factorStep lr diff i j) um

/-- The mutable state of the `FunkSVD` training loop: the ratings matrix
argument, both factor matrices, and the running `sse_accum`. -/
structure FSt where
  ratings : RatingsMat
  user : List (List ℚ)
  movie : List (List ℚ)
  sse : ℚ

/-- The body of the user/movie double loop of `FunkSVD` at the pair `(i, j)`:
if `ratings_mat[i, j] > 0`, compute `diff`, accumulate `diff**2` into
`sse_accum`, and run the latent-feature update loop; otherwise do nothing. -/
def pairStep (lr : ℚ) (latent : ℕ) (i j : ℕ) (st : FSt) : FSt :=
  match st.ratings.entry i j with
  | some r =>
    if 0 < r then
      let diff := r - dotCell st.user st.movie i j latent
      let um := factorLoop lr diff i j latent (st.user, st.movie)
      { st with user := um.1, movie := um.2, sse := st.sse + diff ^ 2 }
    else st
  | none => st

/-- The loops `for i in range(n_users): for j in range(n_movies): ...` — one full sweep
over all user–movie pairs. -/
def sweep (lr : ℚ) (latent nu nm : ℕ) (st : FSt) : FSt :=
  (List.range nu).foldl
    (fun s i => (List.range nm).foldl (fun s2 j => pairStep lr latent i j s2) s)
    st

/-- One iteration of the outer `for iteration in range(iters)` loop:
`sse_accum = 0`, then the full sweep. -/
def funkIteration (lr : ℚ) (latent nu nm : ℕ) (st : FSt) : FSt :=
  sweep lr latent nu nm { st with sse := 0 }

/-- The draw `np.random.rand(n, m)` with an oracle `g` supplying the drawn values:
an `n × m` matrix. -/
def mkMat (n m : ℕ) (g : ℕ → ℕ → ℚ) : List (List ℚ) :=
  (List.range n).map (fun i => (List.range m).map (fun j => g i j))

/-- The state of `FunkSVD` just before the iteration loop: the ratings matrix,
randomly initialized `user_mat` and `movie_mat` (oracles `g`, `h`), and
`sse_accum = 0`. -/
def initSt (R : RatingsMat) (latent : ℕ) (g h : ℕ → ℕ → ℚ) : FSt :=
  { ratings := R
    user := mkMat R.rows latent g
    movie := mkMat latent R.cols h
    sse := 0 }

/-- The training state after `t` iterations of the `FunkSVD` outer loop. -/
def funkState (R : RatingsMat) (latent : ℕ) (lr : ℚ) (g h : ℕ → ℕ → ℚ)
    (t : ℕ) : FSt :=
  (funkIteration lr latent R.rows R.cols)^[t] (initSt R latent g h)

/-- The function `FunkSVD(ratings_mat, latent_features, learning_rate, iters)`:
returns `user_mat, movie_mat` after `iters` iterations. -/
def FunkSVD (R : RatingsMat) (latent : ℕ) (lr : ℚ) (iters : ℕ)
    (g h : ℕ → ℕ → ℚ) : List (List ℚ) × List (List ℚ) :=
  ((funkState R latent lr g h iters).user, (funkState R latent lr g h iters).movie)

/-- The sequence of mean-squared-error values printed by `FunkSVD`, one per
iteration: `sse_accum / num_ratings` at the end of each iteration. -/
def FunkSVD_mse_reports (R : RatingsMat) (latent : ℕ) (lr : ℚ) (iters : ℕ)
    (g h : ℕ → ℕ → ℚ) : List ℚ :=
  (List.range iters).map
    (fun t => (funkState R latent lr g h (t + 1)).sse / (num_ratings R : ℚ))

/-- The shape predicate for a list-of-rows matrix: `r` rows, each of length `c`
(`numpy`'s `a.shape == (r, c)`). -/
def Mshape (M : List (List ℚ)) (r c : ℕ) : Prop :=
  M.length = r ∧ ∀ row ∈ M, row.length = c

/-- The closed form of the code's user-factor update at latent feature `k`:
`u + lr * (2*diff*m)`, where `u`, `m` are the values held before the pair's
update began. -/
def newU (lr diff u m : ℚ) : ℚ := u + lr * (2 * diff * m)

/-- The closed form of the code's movie-factor update at latent feature `k`:
it reads the user factor after the line above it has already updated it, so
the increment is `lr * (2*diff*(newU lr diff u m))`. -/
def newM (lr diff u m : ℚ) : ℚ := m + lr * (2 * diff * newU lr diff u m)

/-- The update that claim C2 describes, stated from the claim's words for
comparison with the source's `factorLoop` (not translated from the source):
each factor is incremented by the learning rate times the gradient of
`(r - dot(user_row, movie_col))^2` with respect to that factor, all gradients
evaluated at the factor values held before the entry's update began
(`∂/∂u_k = -2*diff*m_k`, `∂/∂m_k = -2*diff*u_k`). -/
def gradientUpdateClaimed (lr r : ℚ) (i j latent : ℕ)
    (U M : List (List ℚ)) : List (List ℚ) × List (List ℚ) :=
  let diff := r - dotCell U M i j latent
  ((List.range latent).foldl
      (fun A k => setCell A i k (getCell U i k + lr * (-(2 * diff * getCell M k j)))) U,
   (List.range latent).foldl
      (fun B k => setCell B k j (getCell M k j + lr * (-(2 * diff * getCell U i k)))) M)

/-- A 1×1 ratings matrix holding the single (non-NaN) rating 0: a cell that
`np.count_nonzero(~np.isnan(·))` counts but that fails the `> 0` update test. -/
def Rzero : RatingsMat := ⟨1, 1, fun _ _ => some 0⟩

/-- A 1×1 ratings matrix holding the single rating 3, used to exhibit the
order of the factor updates concretely. -/
def Rthree : RatingsMat := ⟨1, 1, fun _ _ => some 3⟩

/-- A concrete training state over `Rthree` with one latent feature and both
factors equal to 1. -/
def stOne : FSt := ⟨Rthree, [[1]], [[1]], 0⟩

/-- A concrete training state over `Rzero`. -/
def stZero : FSt := ⟨Rzero, [[1]], [[1]], 0⟩

/-- A 1×1 ratings matrix holding the single rating 1 (all observed ratings
positive, as in the notebook's 1–10 rating data). -/
def Rone : RatingsMat := ⟨1, 1, fun _ _ => some 1⟩

/-- A concrete training state over `Rone`. -/
def stPos : FSt := ⟨Rone, [[1]], [[1]], 0⟩

/-! ### Non-parametric tests (`3_non-parametric_tests_a.ipynb`) -/

/-- The call `np.percentile(a, p)` with the default linear interpolation: sort `a`,
set `idx = (len(a) - 1) * p/100`, and interpolate between the values at
`floor(idx)` and `ceil(idx)`.  numpy raises on an empty array and on `p`
outside `[0, 100]`; those calls are `none` here. -/
def nppercentile (a : List ℚ) (p : ℚ) : Option ℚ :=
  if a = [] then none
  else if p < 0 ∨ 100 < p then none
  else
    let s := a.mergeSort (fun x y => decide (x ≤ y))
    let idx : ℚ := ((a.length : ℚ) - 1) * (p / 100)
    let lo : ℕ := (Int.floor idx).toNat
    let hi : ℕ := (Int.ceil idx).toNat
    let frac : ℚ := idx - Int.floor idx
    some (s.getD lo 0 + frac * (s.getD hi 0 - s.getD lo 0))

/-- numpy boolean-mask selection `x[labels == b]` for a 0/1 label array
(labels are booleans here, `false` = 0, `true` = 1), assuming the arrays have
equal length as numpy requires. -/
def maskSel : List ℚ → List Bool → Bool → List ℚ
  | _, [], _ => []
  | [], _ :: _, _ => []
  | v :: vs, l :: ls, b => if l == b then v :: maskSel vs ls b else maskSel vs ls b

/-- The per-trial statistic of `quantile_permtest` for a label assignment
`lab`: `np.percentile(x[lab == 1], 100q) - np.percentile(x[lab == 0], 100q)`. -/
def quantDiff (x : List ℚ) (lab : List Bool) (q : ℚ) : Option ℚ :=
  (nppercentile (maskSel x lab false) (100 * q)).bind fun cond_q =>
  (nppercentile (maskSel x lab true) (100 * q)).map fun exp_q => exp_q - cond_q

/-- Sequencing of a list of fallible results: the first failure aborts, the
way the first exception unwinds a Python loop. -/
def optList : List (Option ℚ) → Option (List ℚ)
  | [] => some []
  | none :: _ => none
  | some v :: rest => (optList rest).map (v :: ·)

/-- The `sample_diffs` list built by the trials loop of `quantile_permtest`,
with the oracle `perms` supplying `np.random.permutation(y)` for each trial. -/
def trialsDiffs (x : List ℚ) (q : ℚ) (perms : ℕ → List Bool) (n_trials : ℕ) :
    Option (List ℚ) :=
  optList ((List.range n_trials).map (fun t => quantDiff x (perms t) q))

/-- The function `quantile_permtest(x, y, q, alternative, n_trials)`.  In the code's actual
usage `y` is the 0/1 grouping array and `x` the data array.  For an
`alternative` other than `'less'` and `'greater'` no branch assigns `hits`, so
the Python call fails with an unbound-local error: `none` here. -/
def quantile_permtest (x : List ℚ) (y : List Bool) (q : ℚ)
    (alternative : String) (n_trials : ℕ) (perms : ℕ → List Bool) : Option ℚ :=
  (trialsDiffs x q perms n_trials).bind fun sample_diffs =>
  (quantDiff x y q).bind fun obs_diff =>
  if alternative = "less" then
    some (((sample_diffs.filter (fun d => decide (d ≤ obs_diff))).length : ℚ) / (n_trials : ℚ))
  else if alternative = "greater" then
    some (((sample_diffs.filter (fun d => decide (obs_diff ≤ d))).length : ℚ) / (n_trials : ℚ))
  else none

/-- The bootstrap sample of trial `t` in `quantile_ci`:
`np.random.choice(data, n_points, replace = True)`, with the oracle `pick`
supplying the random draw; reducing the oracle's value mod `data.length`
makes every element a with-replacement draw from `data`. -/
def bootSample (data : List ℚ) (pick : ℕ → ℕ → ℕ) (t : ℕ) : List ℚ :=
  (List.range data.length).map (fun r => data.getD (pick t r % data.length) 0)

/-- The `sample_qs` list built by the trials loop of `quantile_ci`: the
`q`-th quantile of each bootstrap sample. -/
def bootQs (data : List ℚ) (q : ℚ) (pick : ℕ → ℕ → ℕ) (n_trials : ℕ) :
    Option (List ℚ) :=
  optList ((List.range n_trials).map (fun t => nppercentile (bootSample data pick t) (100 * q)))

/-- The function `quantile_ci(data, q, c, n_trials)`: bootstrap the `q`-th quantile
`n_trials` times and return the `(1-c)/2` and `(1+c)/2` percentiles of the
sampled quantiles as the confidence-interval bounds. -/
def quantile_ci (data : List ℚ) (q c : ℚ) (n_trials : ℕ)
    (pick : ℕ → ℕ → ℕ) : Option (ℚ × ℚ) :=
  (bootQs data q pick n_trials).bind fun sample_qs =>
  (nppercentile sample_qs ((1 - c) / 2 * 100)).bind fun lower_limit =>
  (nppercentile sample_qs ((1 + c) / 2 * 100)).map fun upper_limit =>
  (lower_limit, upper_limit)

/-! ### Train/validation split and prediction
(`3 how are we doing.ipynb`) -/

/-- The function `create_train_test(reviews, order_by, training_size, testing_size)`:
sort the dataframe rows by the `order_by` column (`order_by` is the sort key
of a row here), take the first `training_size` rows as the training set and
the slice `iloc[training_size : training_size + testing_size]` as the
validation set. -/
def create_train_test {α : Type} (reviews : List α) (order_by : α → ℚ)
    (training_size testing_size : ℕ) : List α × List α :=
  let reviews_new := reviews.mergeSort (fun a b => decide (order_by a ≤ order_by b))
  (reviews_new.take training_size,
   (reviews_new.drop training_size).take testing_size)

/-- The lookup `np.where(series == v)[0][0]`: the position of the first occurrence of
`v`, or `none` when the match array is empty and the `[0]` index raises. -/
def npWhereFirst : List ℤ → ℤ → Option ℕ
  | [], _ => none
  | a :: as, v => if a = v then some 0 else (npWhereFirst as v).map (· + 1)

/-- The product `np.dot` of two 1-D arrays. -/
def dotList (u v : List ℚ) : ℚ := (List.zipWith (· * ·) u v).sum

/-- The function `predict_rating(user_matrix, movie_matrix, user_id, movie_id)`: look up
the user's row position in the training matrix's row index `uids` and the
movie's column position in its column index `mids`, and dot the corresponding
row of `user_matrix` with the corresponding column of `movie_matrix`.
A failed lookup is the Python `IndexError`: `none`. -/
def predict_rating (uids mids : List ℤ) (user_matrix movie_matrix : List (List ℚ))
    (user_id movie_id : ℤ) : Option ℚ :=
  (npWhereFirst uids user_id).bind fun user_row =>
  (npWhereFirst mids movie_id).map fun movie_col =>
  dotList (user_matrix.getD user_row []) (movie_matrix.map (fun r => r.getD movie_col 0))

/-! ## Helper lemmas -/

theorem getD_set_eq {α : Type} (v d : α) :
    ∀ (l : List α) (i : ℕ), i < l.length → (l.set i v).getD i d = v := by
  intro l
  induction l with
  | nil => intro i h; simp at h
  | cons a as ih =>
    intro i h
    cases i with
    | zero => rfl
    | succ n => exact ih n (by simpa using h)

theorem getD_set_ne {α : Type} (v d : α) :
    ∀ (l : List α) (i i' : ℕ), i ≠ i' → (l.set i v).getD i' d = l.getD i' d := by
  intro l
  induction l with
  | nil => intro i i' _; rfl
  | cons a as ih =>
    intro i i' hne
    cases i with
    | zero =>
      cases i' with
      | zero => exact absurd rfl hne
      | succ n => rfl
    | succ n =>
      cases i' with
      | zero => rfl
      | succ n' => exact ih n n' (fun h => hne (by rw [h]))

theorem getD_mem {α : Type} (d : α) :
    ∀ (l : List α) (i : ℕ), i < l.length → l.getD i d ∈ l := by
  intro l
  induction l with
  | nil => intro i h; simp at h
  | cons a as ih =>
    intro i h
    cases i with
    | zero => exact List.mem_cons_self a as
    | succ n => exact List.mem_cons_of_mem a (ih n (by simpa using h))

theorem setCell_length (M : List (List ℚ)) (i j : ℕ) (v : ℚ) :
    (setCell M i j v).length = M.length := by
  simp [setCell]

theorem getCell_setCell_self (M : List (List ℚ)) (i j : ℕ) (v : ℚ)
    (hi : i < M.length) (hj : j < (M.getD i []).length) :
    getCell (setCell M i j v) i j = v := by
  unfold getCell setCell
  rw [getD_set_eq _ _ M i hi]
  exact getD_set_eq _ _ _ j hj

theorem getCell_setCell_ne (M : List (List ℚ)) (i j i' j' : ℕ) (v : ℚ)
    (h : i ≠ i' ∨ j ≠ j') :
    getCell (setCell M i j v) i' j' = getCell M i' j' := by
  unfold getCell setCell
  rcases h with h | h
  · rw [getD_set_ne _ _ M i i' h]
  · by_cases hii : i = i'
    · subst hii
      by_cases hlen : i < M.length
      · rw [getD_set_eq _ _ M i hlen, getD_set_ne _ _ _ j j' h]
      · rw [List.set_eq_of_length_le (by omega)]
    · rw [getD_set_ne _ _ M i i' hii]

theorem Mshape_setCell (M : List (List ℚ)) (i j : ℕ) (v : ℚ) (r c : ℕ)
    (h : Mshape M r c) : Mshape (setCell M i j v) r c := by
  by_cases hi : i < M.length
  · obtain ⟨hlen, hrow⟩ := h
    refine ⟨by simpa [setCell] using hlen, ?_⟩
    intro row hmem
    rcases List.mem_or_eq_of_mem_set hmem with hmem' | rfl
    · exact hrow row hmem'
    · rw [List.length_set]
      exact hrow _ (getD_mem _ M i hi)
  · unfold setCell
    rw [List.set_eq_of_length_le (by omega)]
    exact h

theorem foldl_preserve {α β : Type} (f : β → α → β) (P : β → Prop)
    (h : ∀ b a, P b → P (f b a)) :
    ∀ (l : List α) (b : β), P b → P (l.foldl f b) := by
  intro l
  induction l with
  | nil => intro b hb; exact hb
  | cons a as ih => intro b hb; exact ih (f b a) (h b a hb)

/-! ### The ratings matrix is only read by the training loop -/

theorem pairStep_ratings (lr : ℚ) (latent i j : ℕ) (st : FSt) :
    (pairStep lr latent i j st).ratings = st.ratings := by
  unfold pairStep
  cases st.ratings.entry i j with
  | none => rfl
  | some r =>
    by_cases h : 0 < r
    · simp [h]
    · simp [h]

theorem sweep_ratings (lr : ℚ) (latent nu nm : ℕ) (st : FSt) :
    (sweep lr latent nu nm st).ratings = st.ratings := by
  unfold sweep
  refine foldl_preserve _ (fun s => s.ratings = st.ratings) ?_ _ st rfl
  intro b i hb
  refine foldl_preserve _ (fun s => s.ratings = st.ratings) ?_ _ b hb
  intro b2 j hb2
  rw [pairStep_ratings]
  exact hb2

theorem funkIteration_ratings (lr : ℚ) (latent nu nm : ℕ) (st : FSt) :
    (funkIteration lr latent nu nm st).ratings = st.ratings := by
  unfold funkIteration
  rw [sweep_ratings]

/-! ### Shape preservation -/

theorem factorStep_shape (lr diff : ℚ) (i j k : ℕ)
    (um : List (List ℚ) × List (List ℚ)) (ru cu rm cm : ℕ)
    (h : Mshape um.1 ru cu ∧ Mshape um.2 rm cm) :
    Mshape (factorStep lr diff i j um k).1 ru cu ∧
      Mshape (factorStep lr diff i j um k).2 rm cm :=
  ⟨Mshape_setCell _ _ _ _ _ _ h.1, Mshape_setCell _ _ _ _ _ _ h.2⟩

theorem factorLoop_shape (lr diff : ℚ) (i j latent : ℕ)
    (um : List (List ℚ) × List (List ℚ)) (ru cu rm cm : ℕ)
    (h : Mshape um.1 ru cu ∧ Mshape um.2 rm cm) :
    Mshape (factorLoop lr diff i j latent um).1 ru cu ∧
      Mshape (factorLoop lr diff i j latent um).2 rm cm := by
  unfold factorLoop
  exact foldl_preserve _ (fun p => Mshape p.1 ru cu ∧ Mshape p.2 rm cm)
    (fun p k hp => factorStep_shape lr diff i j k p ru cu rm cm hp) _ um h

theorem pairStep_shape (lr : ℚ) (latent i j : ℕ) (st : FSt) (ru cu rm cm : ℕ)
    (h : Mshape st.user ru cu ∧ Mshape st.movie rm cm) :
    Mshape (pairStep lr latent i j st).user ru cu ∧
      Mshape (pairStep lr latent i j st).movie rm cm := by
  unfold pairStep
  cases st.ratings.entry i j with
  | none => exact h
  | some r =>
    by_cases hr : 0 < r
    · simpa [hr] using factorLoop_shape lr _ i j latent (st.user, st.movie) ru cu rm cm h
    · simpa [hr] using h

theorem sweep_shape (lr : ℚ) (latent nu nm : ℕ) (st : FSt) (ru cu rm cm : ℕ)
    (h : Mshape st.user ru cu ∧ Mshape st.movie rm cm) :
    Mshape (sweep lr latent nu nm st).user ru cu ∧
      Mshape (sweep lr latent nu nm st).movie rm cm := by
  unfold sweep
  refine foldl_preserve _ (fun s => Mshape s.user ru cu ∧ Mshape s.movie rm cm) ?_ _ st h
  intro b i hb
  refine foldl_preserve _ (fun s => Mshape s.user ru cu ∧ Mshape s.movie rm cm) ?_ _ b hb
  intro b2 j hb2
  exact pairStep_shape lr latent i j b2 ru cu rm cm hb2

theorem mkMat_shape (n m : ℕ) (g : ℕ → ℕ → ℚ) : Mshape (mkMat n m g) n m := by
  constructor
  · simp [mkMat]
  · intro row hrow
    simp only [mkMat, List.mem_map] at hrow
    obtain ⟨i, _, rfl⟩ := hrow
    simp

theorem funkState_shape (R : RatingsMat) (latent : ℕ) (lr : ℚ)
    (g h : ℕ → ℕ → ℚ) :
    ∀ t : ℕ, Mshape (funkState R latent lr g h t).user R.rows latent ∧
      Mshape (funkState R latent lr g h t).movie latent R.cols := by
  intro t
  induction t with
  | zero => exact ⟨mkMat_shape _ _ _, mkMat_shape _ _ _⟩
  | succ n ih =>
    unfold funkState at ih ⊢
    rw [Function.iterate_succ_apply']
    exact sweep_shape lr latent R.rows R.cols _ _ _ _ _ ih

/-! ## Claim C9 -/

/-- C9: `FunkSVD` leaves its `ratings_mat` argument unchanged: after any
number of training iterations the state's ratings matrix is the input
matrix, so the ratings are only read and training mutates no caller-visible
state (the factor matrices are separately built starting from `mkMat`). -/
theorem funkSVD_ratings_readonly (R : RatingsMat) (latent : ℕ) (lr : ℚ)
    (g h : ℕ → ℕ → ℚ) : ∀ t : ℕ, (funkState R latent lr g h t).ratings = R := by
  intro t
  induction t with
  | zero => rfl
  | succ n ih =>
    unfold funkState at ih ⊢
    rw [Function.iterate_succ_apply', funkIteration_ratings]
    exact ih

/-! ## Claim C7 -/

/-- C7: for a ratings matrix with `R.rows` users and `R.cols` movies,
`FunkSVD` returns a user matrix of shape `R.rows × latent` and a movie matrix
of shape `latent × R.cols`, and these shapes hold after every iteration of
the training loop. -/
theorem funkSVD_shapes (R : RatingsMat) (latent : ℕ) (lr : ℚ) (iters : ℕ)
    (g h : ℕ → ℕ → ℚ) :
    Mshape (FunkSVD R latent lr iters g h).1 R.rows latent ∧
      Mshape (FunkSVD R latent lr iters g h).2 latent R.cols ∧
      ∀ t : ℕ, Mshape (funkState R latent lr g h t).user R.rows latent ∧
        Mshape (funkState R latent lr g h t).movie latent R.cols :=
  ⟨(funkState_shape R latent lr g h iters).1,
   (funkState_shape R latent lr g h iters).2,
   funkState_shape R latent lr g h⟩

/-! ### Closed form of the latent-feature update loop -/

theorem factorLoopAux (lr diff : ℚ) (i j latent nu nm : ℕ)
    (U M : List (List ℚ))
    (hU : Mshape U nu latent) (hi : i < nu) (hM : Mshape M latent nm)
    (hj : j < nm) :
    ∀ n, n ≤ latent →
      ((∀ k, k < n →
          getCell ((List.range n).foldl (factorStep lr diff i j) (U, M)).1 i k =
            newU lr diff (getCell U i k) (getCell M k j) ∧
          getCell ((List.range n).foldl (factorStep lr diff i j) (U, M)).2 k j =
            newM lr diff (getCell U i k) (getCell M k j)) ∧
        (∀ i' k', i' ≠ i ∨ n ≤ k' →
          getCell ((List.range n).foldl (factorStep lr diff i j) (U, M)).1 i' k' =
            getCell U i' k') ∧
        (∀ k' j', n ≤ k' ∨ j' ≠ j →
          getCell ((List.range n).foldl (factorStep lr diff i j) (U, M)).2 k' j' =
            getCell M k' j') ∧
        Mshape ((List.range n).foldl (factorStep lr diff i j) (U, M)).1 nu latent ∧
        Mshape ((List.range n).foldl (factorStep lr diff i j) (U, M)).2 latent nm) := by
  intro n
  induction n with
  | zero =>
    intro _
    refine ⟨fun k hk => absurd hk (by omega), fun i' k' _ => rfl, fun k' j' _ => rfl, hU, hM⟩
  | succ n ih =>
    intro hn
    obtain ⟨ibody, iframeU, iframeM, ishU, ishM⟩ := ih (by omega)
    rw [List.range_succ, List.foldl_append, List.foldl_cons, List.foldl_nil]
    set p := (List.range n).foldl (factorStep lr diff i j) (U, M) with hp
    have hUn : getCell p.1 i n = getCell U i n := iframeU i n (Or.inr (le_refl n))
    have hMn : getCell p.2 n j = getCell M n j := iframeM n j (Or.inl (le_refl n))
    have hiU : i < p.1.length := by rw [ishU.1]; exact hi
    have hrowU : n < (p.1.getD i []).length := by
      rw [ishU.2 _ (getD_mem _ p.1 i hiU)]; omega
    have hkM : n < p.2.length := by rw [ishM.1]; omega
    have hrowM : j < (p.2.getD n []).length := by
      rw [ishM.2 _ (getD_mem _ p.2 n hkM)]; exact hj
    have hstep1 : (factorStep lr diff i j p n).1 =
        setCell p.1 i n (getCell p.1 i n + lr * (2 * diff * getCell p.2 n j)) := rfl
    have hstep2 : (factorStep lr diff i j p n).2 =
        setCell p.2 n j
          (getCell p.2 n j + lr * (2 * diff * getCell (factorStep lr diff i j p n).1 i n)) := rfl
    -- the value written to user_mat[i, n]
    have huval : getCell (factorStep lr diff i j p n).1 i n =
        newU lr diff (getCell U i n) (getCell M n j) := by
      rw [hstep1, getCell_setCell_self p.1 i n _ hiU hrowU, hUn, hMn, newU]
    -- the value written to movie_mat[n, j]
    have hmval : getCell (factorStep lr diff i j p n).2 n j =
        newM lr diff (getCell U i n) (getCell M n j) := by
      rw [hstep2, getCell_setCell_self p.2 n j _ hkM hrowM, huval, hMn, newM]
    refine ⟨?_, ?_, ?_, ?_, ?_⟩
    · intro k hk
      by_cases hkn : k = n
      · subst hkn
        exact ⟨huval, hmval⟩
      · have hklt : k < n := by omega
        obtain ⟨hu, hm⟩ := ibody k hklt
        constructor
        · rw [hstep1, getCell_setCell_ne p.1 i n i k _ (Or.inr (fun hh => hkn hh.symm))]
          exact hu
        · rw [hstep2, getCell_setCell_ne p.2 n j k j _ (Or.inl (fun hh => hkn hh.symm))]
          exact hm
    · intro i' k' hcond
      have hne : i ≠ i' ∨ n ≠ k' := by
        rcases hcond with hii | hkk
        · exact Or.inl (fun hh => hii hh.symm)
        · exact Or.inr (by omega)
      rw [hstep1, getCell_setCell_ne p.1 i n i' k' _ hne]
      refine iframeU i' k' ?_
      rcases hcond with hii | hkk
      · exact Or.inl hii
      · exact Or.inr (by omega)
    · intro k' j' hcond
      have hne : n ≠ k' ∨ j ≠ j' := by
        rcases hcond with hkk | hjj
        · exact Or.inl (by omega)
        · exact Or.inr (fun hh => hjj hh.symm)
      rw [hstep2, getCell_setCell_ne p.2 n j k' j' _ hne]
      refine iframeM k' j' ?_
      rcases hcond with hkk | hjj
      · exact Or.inl (by omega)
      · exact Or.inr hjj
    · rw [hstep1]
      exact Mshape_setCell _ _ _ _ _ _ ishU
    · rw [hstep2]
      exact Mshape_setCell _ _ _ _ _ _ ishM

/-! ## Claim C2 -/

/-- Claim C2 as stated is false on the code: for the 1×1 ratings matrix
holding rating 3 with both factors 1 and learning rate 1/10, the code leaves
the movie factor at 39/25, while a gradient step taken at the pre-update
factor values would leave it at 3/5 (with the claim's literal sign
convention, `gradientUpdateClaimed`), or at 7/5 (reading "incremented by the
gradient" as the usual descent step): the code's movie update reads the user
factor that the line above it has already updated. -/
theorem funkSVD_gradient_update_cex :
    (pairStep (1/10) 1 0 0 stOne).user = [[7/5]] ∧
    (pairStep (1/10) 1 0 0 stOne).movie = [[39/25]] ∧
    (gradientUpdateClaimed (1/10) 3 0 0 1 [[1]] [[1]]).2 = [[3/5]] ∧
    (39 : ℚ)/25 ≠ 3/5 ∧ (39 : ℚ)/25 ≠ 7/5 := by
  refine ⟨?_, ?_, ?_, by norm_num, by norm_num⟩
  · norm_num [pairStep, stOne, Rthree, dotCell, factorLoop, factorStep, setCell,
      getCell, List.range_succ]
  · norm_num [pairStep, stOne, Rthree, dotCell, factorLoop, factorStep, setCell,
      getCell, List.range_succ]
  · norm_num [gradientUpdateClaimed, dotCell, setCell, getCell, List.range_succ]

/-- Claim C2 (amended): for an observed entry `(i, j)`, `diff` is computed
from the factor values held before the entry's update began; the user factor
at latent feature `k` is incremented by `lr * 2 * diff * movie_mat[k, j]`
(the learning rate times the negative gradient of the squared error,
evaluated at the pre-update values), while the movie factor at `k` is
incremented by `lr * 2 * diff * u'` where `u'` is the user factor already
updated by the preceding line; all other cells are untouched. -/
theorem funkSVD_gradient_update (lr diff : ℚ) (i j latent nu nm : ℕ)
    (U M : List (List ℚ))
    (hU : Mshape U nu latent) (hi : i < nu) (hM : Mshape M latent nm)
    (hj : j < nm) :
    (∀ k, k < latent →
      getCell (factorLoop lr diff i j latent (U, M)).1 i k =
        newU lr diff (getCell U i k) (getCell M k j) ∧
      getCell (factorLoop lr diff i j latent (U, M)).2 k j =
        newM lr diff (getCell U i k) (getCell M k j)) ∧
    (∀ i' k', i' ≠ i ∨ latent ≤ k' →
      getCell (factorLoop lr diff i j latent (U, M)).1 i' k' = getCell U i' k') ∧
    (∀ k' j', latent ≤ k' ∨ j' ≠ j →
      getCell (factorLoop lr diff i j latent (U, M)).2 k' j' = getCell M k' j') := by
  obtain ⟨hb, hfU, hfM, _, _⟩ :=
    factorLoopAux lr diff i j latent nu nm U M hU hi hM hj latent (le_refl latent)
  exact ⟨hb, hfU, hfM⟩

/-- Witness for `funkSVD_gradient_update` at a concrete input. -/
theorem funkSVD_gradient_update_witness :
    getCell (factorLoop (1/10) 2 0 0 1 ([[1]], [[1]])).1 0 0 =
      newU (1/10) 2 (getCell [[1]] 0 0) (getCell [[1]] 0 0) ∧
    getCell (factorLoop (1/10) 2 0 0 1 ([[1]], [[1]])).2 0 0 =
      newM (1/10) 2 (getCell [[1]] 0 0) (getCell [[1]] 0 0) := by
  have hsh : Mshape [[(1 : ℚ)]] 1 1 := by
    refine ⟨rfl, ?_⟩
    intro row hr
    rw [List.mem_singleton] at hr
    rw [hr]
    rfl
  exact (funkSVD_gradient_update (1/10) 2 0 0 1 1 1 [[1]] [[1]]
    hsh (by omega) hsh (by omega)).1 0 (by omega)

/-! ## Claim C1 -/

/-- Claim C1 as stated is false on the code: on the 1×1 ratings matrix whose
single entry is the observed (non-NaN) rating 0, `num_ratings` — the count
dividing the reported sum of squared errors — is 1, but the entry fails the
`ratings_mat[i, j] > 0` test, so no entry drives an update (the pair step is
the identity) and the two counts differ. -/
theorem funkSVD_observed_count_cex :
    num_ratings Rzero = 1 ∧ countDrivers Rzero = 0 ∧
    num_ratings Rzero ≠ countDrivers Rzero ∧
    pairStep (5/1000) 12 0 0 stZero = stZero := by
  refine ⟨?_, ?_, ?_, ?_⟩
  · simp [num_ratings, Rzero, List.range_succ]
  · simp [countDrivers, obsPos, Rzero, List.range_succ]
  · simp [num_ratings, countDrivers, obsPos, Rzero, List.range_succ]
  · simp [pairStep, stZero, Rzero]

/-- Claim C1 (amended): an entry `(i, j)` contributes an error term and
factor updates in an iteration exactly when its rating is present (non-NaN)
and strictly positive — the `ratings_mat[i, j] > 0` test; `num_ratings`, the
count dividing the reported mean squared error, counts all present entries,
and it equals the number of update-driving entries whenever every present
rating is positive (as for this notebook's 1–10 ratings). -/
theorem funkSVD_observed_entries (lr : ℚ) (latent i j : ℕ) (st : FSt) :
    (obsPos st.ratings i j = false → pairStep lr latent i j st = st) ∧
    (∀ v, st.ratings.entry i j = some v → 0 < v →
      pairStep lr latent i j st =
        { st with
          user := (factorLoop lr (v - dotCell st.user st.movie i j latent) i j
            latent (st.user, st.movie)).1,
          movie := (factorLoop lr (v - dotCell st.user st.movie i j latent) i j
            latent (st.user, st.movie)).2,
          sse := st.sse + (v - dotCell st.user st.movie i j latent) ^ 2 }) ∧
    ((∀ i' j' v, st.ratings.entry i' j' = some v → 0 < v) →
      countDrivers st.ratings = num_ratings st.ratings) := by
  refine ⟨?_, ?_, ?_⟩
  · intro hobs
    unfold pairStep
    cases hE : st.ratings.entry i j with
    | none => rfl
    | some v =>
      rw [obsPos, hE] at hobs
      simp only [decide_eq_false_iff_not] at hobs
      exact if_neg hobs
  · intro v hv hpos
    unfold pairStep
    rw [hv]
    exact if_pos hpos
  · intro hall
    unfold countDrivers num_ratings
    congr 1
    refine List.map_congr_left ?_
    intro i' _
    congr 1
    refine List.filter_congr ?_
    intro j' _
    cases hE : st.ratings.entry i' j' with
    | none => simp [obsPos, hE]
    | some v =>
      have := hall i' j' v hE
      simp [obsPos, hE, this]

/-- Witness for `funkSVD_observed_entries` at a concrete input. -/
theorem funkSVD_observed_entries_witness :
    (pairStep (1/10) 1 0 0 stPos =
      { stPos with
        user := (factorLoop (1/10) (1 - dotCell stPos.user stPos.movie 0 0 1) 0 0 1
          (stPos.user, stPos.movie)).1,
        movie := (factorLoop (1/10) (1 - dotCell stPos.user stPos.movie 0 0 1) 0 0 1
          (stPos.user, stPos.movie)).2,
        sse := stPos.sse + (1 - dotCell stPos.user stPos.movie 0 0 1) ^ 2 }) ∧
    countDrivers Rone = num_ratings Rone := by
  constructor
  · exact (funkSVD_observed_entries (1/10) 1 0 0 stPos).2.1 1 rfl (by norm_num)
  · refine (funkSVD_observed_entries (1/10) 1 0 0 stPos).2.2 ?_
    intro i' j' v hv
    have h1 : (1 : ℚ) = v := Option.some.inj hv
    rw [← h1]
    norm_num

/-! ### Partiality of `np.percentile` and mask selection -/

theorem nppercentile_isSome (a : List ℚ) (p : ℚ)
    (ha : a ≠ []) (h0 : 0 ≤ p) (h100 : p ≤ 100) :
    ∃ v, nppercentile a p = some v := by
  unfold nppercentile
  rw [if_neg ha, if_neg (not_or.mpr ⟨not_lt.mpr h0, not_lt.mpr h100⟩)]
  exact ⟨_, rfl⟩

theorem maskSel_ne_nil (b : Bool) :
    ∀ (lab : List Bool) (x : List ℚ), x.length = lab.length → b ∈ lab →
      maskSel x lab b ≠ [] := by
  intro lab
  induction lab with
  | nil => intro x _ hb; simp at hb
  | cons l ls ih =>
    intro x hlen hb
    cases x with
    | nil => simp at hlen
    | cons v vs =>
      by_cases hlb : l == b
      · simp only [maskSel, hlb, if_true]
        exact List.cons_ne_nil v _
      · have hbls : b ∈ ls := by
          rcases List.mem_cons.mp hb with hbl | hbls
          · exfalso
            rw [hbl] at hlb
            exact hlb (beq_self_eq_true l)
          · exact hbls
        simp only [maskSel, hlb, if_false]
        exact ih vs (by simpa using hlen) hbls

theorem quantDiff_isSome (x : List ℚ) (lab : List Bool) (q : ℚ)
    (hlen : x.length = lab.length) (hf : false ∈ lab) (ht : true ∈ lab)
    (hq0 : 0 ≤ q) (hq1 : q ≤ 1) :
    ∃ d, quantDiff x lab q = some d := by
  have h0 : (0 : ℚ) ≤ 100 * q := by nlinarith
  have h100 : 100 * q ≤ 100 := by nlinarith
  obtain ⟨c, hc⟩ :=
    nppercentile_isSome (maskSel x lab false) (100 * q)
      (maskSel_ne_nil false lab x hlen hf) h0 h100
  obtain ⟨e, he⟩ :=
    nppercentile_isSome (maskSel x lab true) (100 * q)
      (maskSel_ne_nil true lab x hlen ht) h0 h100
  exact ⟨e - c, by simp [quantDiff, hc, he]⟩

theorem optList_some :
    ∀ L : List (Option ℚ), (∀ o ∈ L, o.isSome) →
      ∃ out, optList L = some out ∧ L = out.map some := by
  intro L
  induction L with
  | nil => intro _; exact ⟨[], rfl, rfl⟩
  | cons o rest ih =>
    intro h
    cases o with
    | none => simpa using h none (List.mem_cons_self _ _)
    | some v =>
      obtain ⟨out, h1, h2⟩ := ih (fun o ho => h o (List.mem_cons_of_mem _ ho))
      exact ⟨v :: out, by simp [optList, h1], by simp [← h2]⟩

/-! ## Claim C3 -/

/-- Claim C3: with `y` the 0/1 grouping array (both groups present, matching
`x` in length), `q` a quantile in (0, 1), at least one trial, and every
trial's label assignment a permutation of `y`, `quantile_permtest` returns
`hits / n_trials`, where `hits` counts the permuted-label quantile
differences that are `≤` the observed difference for `alternative = 'less'`
and `≥` it for `alternative = 'greater'`; both returned values lie in
`[0, 1]`. -/
theorem quantile_permtest_pvalue (x : List ℚ) (y : List Bool) (q : ℚ)
    (n_trials : ℕ) (perms : ℕ → List Bool)
    (hxy : x.length = y.length) (hf : false ∈ y) (ht : true ∈ y)
    (hperm : ∀ t, (perms t).Perm y) (hn : 1 ≤ n_trials)
    (hq0 : 0 < q) (hq1 : q < 1) :
    ∃ diffs obs_diff,
      trialsDiffs x q perms n_trials = some diffs ∧
      diffs.length = n_trials ∧
      quantDiff x y q = some obs_diff ∧
      quantile_permtest x y q "less" n_trials perms =
        some (((diffs.filter (fun d => decide (d ≤ obs_diff))).length : ℚ) / (n_trials : ℚ)) ∧
      quantile_permtest x y q "greater" n_trials perms =
        some (((diffs.filter (fun d => decide (obs_diff ≤ d))).length : ℚ) / (n_trials : ℚ)) ∧
      0 ≤ ((diffs.filter (fun d => decide (d ≤ obs_diff))).length : ℚ) / (n_trials : ℚ) ∧
      ((diffs.filter (fun d => decide (d ≤ obs_diff))).length : ℚ) / (n_trials : ℚ) ≤ 1 ∧
      0 ≤ ((diffs.filter (fun d => decide (obs_diff ≤ d))).length : ℚ) / (n_trials : ℚ) ∧
      ((diffs.filter (fun d => decide (obs_diff ≤ d))).length : ℚ) / (n_trials : ℚ) ≤ 1 := by
  have htrial : ∀ t, ∃ d, quantDiff x (perms t) q = some d := by
    intro t
    exact quantDiff_isSome x (perms t) q (hxy.trans (hperm t).length_eq.symm)
      ((hperm t).mem_iff.mpr hf) ((hperm t).mem_iff.mpr ht) (le_of_lt hq0) (le_of_lt hq1)
  have hall : ∀ o ∈ (List.range n_trials).map (fun t => quantDiff x (perms t) q), o.isSome := by
    intro o ho
    rw [List.mem_map] at ho
    obtain ⟨t, _, rfl⟩ := ho
    obtain ⟨d, hd⟩ := htrial t
    simp [hd]
  obtain ⟨diffs, hdiffs, hmapeq⟩ := optList_some _ hall
  have hlen : diffs.length = n_trials := by
    have := congrArg List.length hmapeq
    simpa using this.symm
  obtain ⟨obs_diff, hobs⟩ :=
    quantDiff_isSome x y q hxy hf ht (le_of_lt hq0) (le_of_lt hq1)
  have hnq : (0 : ℚ) ≤ (n_trials : ℚ) := Nat.cast_nonneg n_trials
  have hboundL : ((diffs.filter (fun d => decide (d ≤ obs_diff))).length : ℚ) ≤ (n_trials : ℚ) := by
    have := List.length_filter_le (fun d => decide (d ≤ obs_diff)) diffs
    rw [hlen] at this
    exact_mod_cast this
  have hboundG : ((diffs.filter (fun d => decide (obs_diff ≤ d))).length : ℚ) ≤ (n_trials : ℚ) := by
    have := List.length_filter_le (fun d => decide (obs_diff ≤ d)) diffs
    rw [hlen] at this
    exact_mod_cast this
  have hdiffs' : trialsDiffs x q perms n_trials = some diffs := hdiffs
  refine ⟨diffs, obs_diff, hdiffs', hlen, hobs, ?_, ?_, ?_, ?_, ?_, ?_⟩
  · unfold quantile_permtest
    rw [hdiffs', hobs]
    simp
  · unfold quantile_permtest
    rw [hdiffs', hobs]
    simp
  · exact div_nonneg (Nat.cast_nonneg _) hnq
  · exact div_le_one_of_le₀ hboundL hnq
  · exact div_nonneg (Nat.cast_nonneg _) hnq
  · exact div_le_one_of_le₀ hboundG hnq

/-- Witness for `quantile_permtest_pvalue` at a concrete input. -/
theorem quantile_permtest_pvalue_witness :
    ∃ diffs obs_diff,
      trialsDiffs [1, 2] (1/2) (fun _ => [false, true]) 1 = some diffs ∧
      diffs.length = 1 ∧
      quantDiff [1, 2] [false, true] (1/2) = some obs_diff ∧
      quantile_permtest [1, 2] [false, true] (1/2) "less" 1 (fun _ => [false, true]) =
        some (((diffs.filter (fun d => decide (d ≤ obs_diff))).length : ℚ) / ((1 : ℕ) : ℚ)) ∧
      quantile_permtest [1, 2] [false, true] (1/2) "greater" 1 (fun _ => [false, true]) =
        some (((diffs.filter (fun d => decide (obs_diff ≤ d))).length : ℚ) / ((1 : ℕ) : ℚ)) ∧
      0 ≤ ((diffs.filter (fun d => decide (d ≤ obs_diff))).length : ℚ) / ((1 : ℕ) : ℚ) ∧
      ((diffs.filter (fun d => decide (d ≤ obs_diff))).length : ℚ) / ((1 : ℕ) : ℚ) ≤ 1 ∧
      0 ≤ ((diffs.filter (fun d => decide (obs_diff ≤ d))).length : ℚ) / ((1 : ℕ) : ℚ) ∧
      ((diffs.filter (fun d => decide (obs_diff ≤ d))).length : ℚ) / ((1 : ℕ) : ℚ) ≤ 1 :=
  quantile_permtest_pvalue [1, 2] [false, true] (1/2) 1 (fun _ => [false, true])
    rfl (by simp) (by simp) (fun _ => List.Perm.refl _) (le_refl 1)
    (by norm_num) (by norm_num)

/-! ## Claim C10 -/

/-- Claim C10: for an `alternative` other than `'less'` and `'greater'`,
no branch of `quantile_permtest` assigns `hits`, so the call fails (the
Python unbound-local error) instead of returning a p-value. -/
theorem quantile_permtest_bad_alternative (x : List ℚ) (y : List Bool) (q : ℚ)
    (alternative : String) (n_trials : ℕ) (perms : ℕ → List Bool)
    (h1 : alternative ≠ "less") (h2 : alternative ≠ "greater") :
    quantile_permtest x y q alternative n_trials perms = none := by
  unfold quantile_permtest
  cases trialsDiffs x q perms n_trials with
  | none => rfl
  | some diffs =>
    cases quantDiff x y q with
    | none => rfl
    | some obs => simp [Option.bind, h1, h2]

/-- Witness for `quantile_permtest_bad_alternative` at a concrete input. -/
theorem quantile_permtest_bad_alternative_witness :
    quantile_permtest [1, 2] [false, true] (1/2) "two-sided" 1
      (fun _ => [false, true]) = none :=
  quantile_permtest_bad_alternative [1, 2] [false, true] (1/2) "two-sided" 1
    (fun _ => [false, true]) (by simp) (by simp)

/-! ### Bootstrap sampling helpers -/

theorem bootSample_length (data : List ℚ) (pick : ℕ → ℕ → ℕ) (t : ℕ) :
    (bootSample data pick t).length = data.length := by
  simp [bootSample]

theorem bootSample_mem (data : List ℚ) (pick : ℕ → ℕ → ℕ) (t : ℕ)
    (hd : data ≠ []) : ∀ v ∈ bootSample data pick t, v ∈ data := by
  intro v hv
  simp only [bootSample, List.mem_map, List.mem_range] at hv
  obtain ⟨r, _, rfl⟩ := hv
  exact getD_mem 0 data _ (Nat.mod_lt _ (List.length_pos.mpr hd))

/-! ## Claim C4 -/

/-- Claim C4: `quantile_ci` draws `n_trials` bootstrap samples, each of size
`n_points = data.length` with every element drawn from `data` (with
replacement), computes the `q`-th quantile of each sample (`sample_qs`), and
returns the `(1-c)/2`-th and `(1+c)/2`-th percentiles of those sampled
quantiles as the confidence-interval bounds. -/
theorem quantile_ci_bootstrap (data : List ℚ) (q c : ℚ) (n_trials : ℕ)
    (pick : ℕ → ℕ → ℕ)
    (hd : data ≠ []) (hn : 1 ≤ n_trials)
    (hq0 : 0 ≤ q) (hq1 : q ≤ 1) (hc0 : 0 ≤ c) (hc1 : c ≤ 1) :
    (∀ t, (bootSample data pick t).length = data.length ∧
      ∀ v ∈ bootSample data pick t, v ∈ data) ∧
    ∃ sample_qs,
      bootQs data q pick n_trials = some sample_qs ∧
      sample_qs.length = n_trials ∧
      (List.range n_trials).map (fun t => nppercentile (bootSample data pick t) (100 * q)) =
        sample_qs.map some ∧
      ∃ lower_limit upper_limit,
        nppercentile sample_qs ((1 - c) / 2 * 100) = some lower_limit ∧
        nppercentile sample_qs ((1 + c) / 2 * 100) = some upper_limit ∧
        quantile_ci data q c n_trials pick = some (lower_limit, upper_limit) := by
  have hsample : ∀ t, bootSample data pick t ≠ [] := by
    intro t
    have := bootSample_length data pick t
    intro hnil
    rw [hnil] at this
    exact hd (List.length_eq_zero.mp this.symm)
  have h0q : (0 : ℚ) ≤ 100 * q := by nlinarith
  have h100q : 100 * q ≤ 100 := by nlinarith
  have htrial : ∀ t, ∃ v, nppercentile (bootSample data pick t) (100 * q) = some v :=
    fun t => nppercentile_isSome _ _ (hsample t) h0q h100q
  have hall : ∀ o ∈ (List.range n_trials).map
      (fun t => nppercentile (bootSample data pick t) (100 * q)), o.isSome := by
    intro o ho
    rw [List.mem_map] at ho
    obtain ⟨t, _, rfl⟩ := ho
    obtain ⟨v, hv⟩ := htrial t
    simp [hv]
  obtain ⟨sample_qs, hqs, hmapeq⟩ := optList_some _ hall
  have hqs' : bootQs data q pick n_trials = some sample_qs := hqs
  have hlen : sample_qs.length = n_trials := by
    have := congrArg List.length hmapeq
    simpa using this.symm
  have hqsne : sample_qs ≠ [] := by
    intro hnil
    rw [hnil] at hlen
    simp at hlen
    omega
  have hlo : (0 : ℚ) ≤ (1 - c) / 2 * 100 := by nlinarith
  have hlo' : (1 - c) / 2 * 100 ≤ 100 := by nlinarith
  have hhi : (0 : ℚ) ≤ (1 + c) / 2 * 100 := by nlinarith
  have hhi' : (1 + c) / 2 * 100 ≤ 100 := by nlinarith
  obtain ⟨lower_limit, hlower⟩ := nppercentile_isSome sample_qs _ hqsne hlo hlo'
  obtain ⟨upper_limit, hupper⟩ := nppercentile_isSome sample_qs _ hqsne hhi hhi'
  refine ⟨fun t => ⟨bootSample_length data pick t, bootSample_mem data pick t hd⟩,
    sample_qs, hqs', hlen, hmapeq, lower_limit, upper_limit, hlower, hupper, ?_⟩
  unfold quantile_ci
  rw [hqs']
  simp [hlower, hupper]

/-- Witness for `quantile_ci_bootstrap` at a concrete input. -/
theorem quantile_ci_bootstrap_witness :
    (∀ t, (bootSample [1, 2] (fun _ _ => 0) t).length = ([(1 : ℚ), 2]).length ∧
      ∀ v ∈ bootSample [1, 2] (fun _ _ => 0) t, v ∈ [(1 : ℚ), 2]) ∧
    ∃ sample_qs,
      bootQs [1, 2] (1/2) (fun _ _ => 0) 1 = some sample_qs ∧
      sample_qs.length = 1 ∧
      (List.range 1).map
        (fun t => nppercentile (bootSample [1, 2] (fun _ _ => 0) t) (100 * (1/2))) =
        sample_qs.map some ∧
      ∃ lower_limit upper_limit,
        nppercentile sample_qs ((1 - 1/2) / 2 * 100) = some lower_limit ∧
        nppercentile sample_qs ((1 + 1/2) / 2 * 100) = some upper_limit ∧
        quantile_ci [1, 2] (1/2) (1/2) 1 (fun _ _ => 0) =
          some (lower_limit, upper_limit) :=
  quantile_ci_bootstrap [1, 2] (1/2) (1/2) 1 (fun _ _ => 0)
    (by simp) (le_refl 1) (by norm_num) (by norm_num) (by norm_num) (by norm_num)

/-! ## Claim C5 -/

/-- Claim C5: `create_train_test` returns the first `training_size` rows of
the dataframe sorted by the `order_by` column as the training set and the
next `testing_size` rows as the validation set; together they are the first
`training_size + testing_size` rows of the sorted dataframe, and (for a
dataframe of distinct rows, as a pandas index guarantees) the two sets are
disjoint, so the validation split is held out of training. -/
theorem create_train_test_holdout {α : Type} (reviews : List α)
    (order_by : α → ℚ) (training_size testing_size : ℕ)
    (hnd : reviews.Nodup) :
    (create_train_test reviews order_by training_size testing_size).1 =
      (reviews.mergeSort (fun a b => decide (order_by a ≤ order_by b))).take training_size ∧
    (create_train_test reviews order_by training_size testing_size).2 =
      ((reviews.mergeSort (fun a b => decide (order_by a ≤ order_by b))).drop
        training_size).take testing_size ∧
    (reviews.mergeSort (fun a b => decide (order_by a ≤ order_by b))).Perm reviews ∧
    (create_train_test reviews order_by training_size testing_size).1 ++
      (create_train_test reviews order_by training_size testing_size).2 =
      (reviews.mergeSort (fun a b => decide (order_by a ≤ order_by b))).take
        (training_size + testing_size) ∧
    (create_train_test reviews order_by training_size testing_size).1.Disjoint
      (create_train_test reviews order_by training_size testing_size).2 := by
  have hperm : (reviews.mergeSort (fun a b => decide (order_by a ≤ order_by b))).Perm reviews :=
    List.mergeSort_perm reviews _
  have hsortnd : (reviews.mergeSort (fun a b => decide (order_by a ≤ order_by b))).Nodup :=
    hperm.nodup_iff.mpr hnd
  refine ⟨rfl, rfl, hperm, ?_, ?_⟩
  · rw [create_train_test, List.take_add]
  · intro a ha hb
    have hdisj := List.disjoint_take_drop (l := reviews.mergeSort
      (fun a b => decide (order_by a ≤ order_by b)))
      (m := training_size) (n := training_size) hsortnd (le_refl _)
    exact hdisj ha (List.take_subset _ _ hb)

/-- Witness for `create_train_test_holdout` at a concrete input. -/
theorem create_train_test_holdout_witness :
    (create_train_test [(2 : ℚ), 1, 3] id 2 1).1 =
      (([(2 : ℚ), 1, 3]).mergeSort (fun a b => decide (id a ≤ id b))).take 2 ∧
    (create_train_test [(2 : ℚ), 1, 3] id 2 1).2 =
      ((([(2 : ℚ), 1, 3]).mergeSort (fun a b => decide (id a ≤ id b))).drop 2).take 1 ∧
    (([(2 : ℚ), 1, 3]).mergeSort (fun a b => decide (id a ≤ id b))).Perm [(2 : ℚ), 1, 3] ∧
    (create_train_test [(2 : ℚ), 1, 3] id 2 1).1 ++
      (create_train_test [(2 : ℚ), 1, 3] id 2 1).2 =
      (([(2 : ℚ), 1, 3]).mergeSort (fun a b => decide (id a ≤ id b))).take (2 + 1) ∧
    (create_train_test [(2 : ℚ), 1, 3] id 2 1).1.Disjoint
      (create_train_test [(2 : ℚ), 1, 3] id 2 1).2 :=
  create_train_test_holdout [(2 : ℚ), 1, 3] id 2 1 (by norm_num)

/-! ### Index lookups of `predict_rating` -/

theorem npWhereFirst_mem (v : ℤ) :
    ∀ l : List ℤ, v ∈ l →
      ∃ r, npWhereFirst l v = some r ∧ r < l.length ∧ l.getD r 0 = v := by
  intro l
  induction l with
  | nil => intro hv; simp at hv
  | cons a as ih =>
    intro hv
    by_cases hav : a = v
    · exact ⟨0, by simp [npWhereFirst, hav], by simp, hav⟩
    · have hvs : v ∈ as := by
        rcases List.mem_cons.mp hv with hva | hvs
        · exact absurd hva.symm hav
        · exact hvs
      obtain ⟨r, h1, h2, h3⟩ := ih hvs
      refine ⟨r + 1, ?_, by simpa using h2, h3⟩
      simp [npWhereFirst, hav, h1]

theorem npWhereFirst_not_mem (v : ℤ) :
    ∀ l : List ℤ, v ∉ l → npWhereFirst l v = none := by
  intro l
  induction l with
  | nil => intro _; rfl
  | cons a as ih =>
    intro hv
    have hav : a ≠ v := fun h => hv (h ▸ List.mem_cons_self a as)
    have hvs : v ∉ as := fun h => hv (List.mem_cons_of_mem a h)
    simp [npWhereFirst, hav, ih hvs]

/-! ## Claim C6 -/

/-- Claim C6: for a `user_id` present in the training matrix's row index and
a `movie_id` present in its column index, `predict_rating` returns the dot
product of the row of the user factor matrix at the user's position and the
column of the movie factor matrix at the movie's position. -/
theorem predict_rating_dot (uids mids : List ℤ)
    (user_matrix movie_matrix : List (List ℚ)) (user_id movie_id : ℤ)
    (hu : user_id ∈ uids) (hm : movie_id ∈ mids) :
    ∃ user_row movie_col,
      npWhereFirst uids user_id = some user_row ∧
      npWhereFirst mids movie_id = some movie_col ∧
      user_row < uids.length ∧ movie_col < mids.length ∧
      uids.getD user_row 0 = user_id ∧ mids.getD movie_col 0 = movie_id ∧
      predict_rating uids mids user_matrix movie_matrix user_id movie_id =
        some (dotList (user_matrix.getD user_row [])
          (movie_matrix.map (fun r => r.getD movie_col 0))) := by
  obtain ⟨user_row, hu1, hu2, hu3⟩ := npWhereFirst_mem user_id uids hu
  obtain ⟨movie_col, hm1, hm2, hm3⟩ := npWhereFirst_mem movie_id mids hm
  refine ⟨user_row, movie_col, hu1, hm1, hu2, hm2, hu3, hm3, ?_⟩
  unfold predict_rating
  rw [hu1, hm1]
  rfl

/-- Witness for `predict_rating_dot` at a concrete input. -/
theorem predict_rating_dot_witness :
    ∃ user_row movie_col,
      npWhereFirst [8] 8 = some user_row ∧
      npWhereFirst [2844] 2844 = some movie_col ∧
      user_row < ([(8 : ℤ)]).length ∧ movie_col < ([(2844 : ℤ)]).length ∧
      ([(8 : ℤ)]).getD user_row 0 = 8 ∧ ([(2844 : ℤ)]).getD movie_col 0 = 2844 ∧
      predict_rating [8] [2844] [[1]] [[1]] 8 2844 =
        some (dotList (([[(1 : ℚ)]]).getD user_row [])
          (([[(1 : ℚ)]]).map (fun r => r.getD movie_col 0))) :=
  predict_rating_dot [8] [2844] [[1]] [[1]] 8 2844 (by simp) (by simp)

/-! ## Claim C8 -/

/-- Claim C8: `predict_rating` is partial at its interface: for a `user_id`
absent from the training matrix's row index or a `movie_id` absent from its
column index, the `np.where(...)[0][0]` lookup indexes an empty match array
and the call fails with an out-of-bounds error instead of returning a
prediction. -/
theorem predict_rating_partial (uids mids : List ℤ)
    (user_matrix movie_matrix : List (List ℚ)) (user_id movie_id : ℤ)
    (h : user_id ∉ uids ∨ movie_id ∉ mids) :
    predict_rating uids mids user_matrix movie_matrix user_id movie_id = none := by
  unfold predict_rating
  rcases h with hu | hm
  · rw [npWhereFirst_not_mem user_id uids hu]
    rfl
  · rw [npWhereFirst_not_mem movie_id mids hm]
    cases npWhereFirst uids user_id with
    | none => rfl
    | some r => rfl

/-- Witness for `predict_rating_partial` at a concrete input: user 49056 does
not appear in the training index, so no prediction is returned (the seventh
validation row of the notebook fails the same way). -/
theorem predict_rating_partial_witness :
    predict_rating [8] [2844] [[1]] [[1]] 49056 1598822 = none :=
  predict_rating_partial [8] [2844] [[1]] [[1]] 49056 1598822
    (Or.inl (by simp))

end DataScientist
